import Mathlib

/-!
Verification development for the Bimboh / Iris memecoin-hunting platform,
centred on `js-scraper/adk_workflow_orchestrator.mjs`.

The JavaScript orchestrator and its tools are shallowly embedded below:
pure helpers (`formatViews`, `getTiktokId`, `sanitize`) become Lean
functions on `String`/`List Char`; the stateful orchestration
(`start`, `runManualWorkflow`, `runAgentsIndividually`,
`runPeriodicAnalysis`) becomes explicit state passing over small state
types, with the behaviour of each pipeline stage (an ADK agent's `run`
call, which may return a value or throw) supplied as a parameter;
Supabase tables become in-memory lists with the store's upsert/insert
semantics made explicit.  JavaScript's untyped return values are
modelled by small sum types (`undefined` becomes a dedicated
constructor), thrown exceptions by explicit outcome constructors, and
JS `NaN` by `Option` (`none` = NaN).
-/

namespace Iris

/-! ## Pipeline stages

The seven agents wired into the orchestrator
(`adk_workflow_orchestrator.mjs`, `initializeAgents`): market data,
TikTok scraping, Telegram scraping, Outlight discovery, pattern
analysis, Twitter alerts, dashboard updates. -/

inductive Stage
  | marketData
  | tiktok
  | telegram
  | outlight
  | pattern
  | twitter
  | dashboard
deriving DecidableEq

/-- Result value a stage's tool hands back to the orchestrator
(`{ success, ...payload }` objects in JS). -/
structure StageResult where
  success : Bool
  payload : String
deriving DecidableEq

/-- Outcome of one `await this.agents.X.run(...)` call: the promise
either resolves to a result object or rejects (throws). -/
inductive StageOutcome
  | ok (r : StageResult)
  | throws (msg : String)
deriving DecidableEq

def isThrow : StageOutcome → Bool
  | .ok _ => false
  | .throws _ => true

/-- The per-stage result recorded by `runAgentsIndividually`'s
per-stage `try`/`catch`: a throw is converted into
`{ success: false, error: error.message }`. -/
def resultOf : StageOutcome → StageResult
  | .ok r => r
  | .throws m => ⟨false, m⟩

/-- Stage order of `runManualWorkflow` (Steps 1–7 in the source). -/
def manualStageOrder : List Stage :=
  [.marketData, .tiktok, .telegram, .outlight, .pattern, .twitter, .dashboard]

/-- The agent list passed to `AgentBuilder.create('iris_memecoin_pipeline').asSequential([...])`
in `createWorkflow`. -/
def adkFullSequence : List Stage :=
  [.marketData, .tiktok, .telegram, .outlight, .pattern, .twitter, .dashboard]

/-- The agent list passed to `AgentBuilder.create('periodic_analysis').asSequential([...])`
in `runPeriodicAnalysis`. -/
def adkPeriodicSequence : List Stage :=
  [.outlight, .pattern, .twitter, .dashboard]

/-- Stage order of the manual fallback inside `runPeriodicAnalysis`. -/
def periodicStageOrder : List Stage :=
  [.outlight, .pattern, .twitter, .dashboard]

/-- The run report returned by `runManualWorkflow` /
`runAgentsIndividually`: `{ success, mode, error?, results, timestamp }`
(the timestamp carries no information for the claims and is omitted;
`results` is the object mapping stage keys to stage results, modelled
as an association list in insertion order). -/
structure RunReport where
  success : Bool
  mode : String
  error : Option String
  results : List (Stage × StageResult)
deriving DecidableEq

/-- `runManualWorkflow`'s main loop (Steps 1–7 of the current
`adk_workflow_orchestrator.mjs`): all seven `await agent.run(...)`
calls sit inside one `try`; a resolved call stores its value in
`results` and control moves to the next step, while a rejected call
jumps to the single `catch`, which returns
`{ success: false, mode: 'manual', error, results }` with whatever was
collected so far.  The second component of the returned pair is
instrumentation: the sequence of stages whose `run` was invoked. -/
def runManualGo (b : Stage → StageOutcome) :
    List Stage → List (Stage × StageResult) → List Stage → RunReport × List Stage
  | [], acc, tr => (⟨true, "manual", none, acc⟩, tr)
  | st :: rest, acc, tr =>
    match b st with
    | .ok r => runManualGo b rest (acc ++ [(st, r)]) (tr ++ [st])
    | .throws m => (⟨false, "manual", some m, acc⟩, tr ++ [st])

def runManualWorkflow (b : Stage → StageOutcome) : RunReport × List Stage :=
  runManualGo b manualStageOrder [] []

/-- `runAgentsIndividually` (the earlier orchestrator variant):
each of the seven steps has its own `try`/`catch`, so a throwing stage
is recorded as `{ success: false, error }` and the loop continues; the
report ends with `success: true, mode: 'individual_execution'`. -/
def runAgentsGo (b : Stage → StageOutcome) :
    List Stage → List (Stage × StageResult) → List (Stage × StageResult)
  | [], acc => acc
  | st :: rest, acc => runAgentsGo b rest (acc ++ [(st, resultOf (b st))])

def runAgentsIndividually (b : Stage → StageOutcome) : RunReport × List Stage :=
  (⟨true, "individual_execution", none, runAgentsGo b manualStageOrder []⟩,
   manualStageOrder)

/-- The manual fallback inside `runPeriodicAnalysis` (current source):
the four stage calls are sequential inside the `catch (adkError)`
block, with no per-stage `try`; a throw escapes to the outermost
`catch`, which only logs, so the function returns `undefined`
(modelled as `none`). -/
def runPeriodicGo (b : Stage → StageOutcome) :
    List Stage → List (Stage × StageResult) → List Stage → Option RunReport × List Stage
  | [], acc, tr => (some ⟨true, "manual", none, acc⟩, tr)
  | st :: rest, acc, tr =>
    match b st with
    | .ok r => runPeriodicGo b rest (acc ++ [(st, r)]) (tr ++ [st])
    | .throws _ => (none, tr ++ [st])

def runPeriodicManual (b : Stage → StageOutcome) : Option RunReport × List Stage :=
  runPeriodicGo b periodicStageOrder [] []

/-! ## The orchestrator's `start` and `getStatus` -/

/-- Orchestrator instance state: `this.workflow` (null or a built ADK
workflow object, modelled as a Bool), `this.isRunning`, `this.sessionId`. -/
structure OrchState where
  workflow : Bool
  isRunning : Bool
  sessionId : String
deriving DecidableEq

/-- Outcome of an external ADK framework call (`AgentBuilder...build()`
or `workflow.run(...)`): resolves or rejects. -/
inductive AdkOutcome
  | ok (msg : String)
  | err (msg : String)
deriving DecidableEq

/-- The environment of one `start` invocation: what the ADK build and
ADK run would do, and what each agent's `run` would do in the manual
path. -/
structure Env where
  adkBuild : AdkOutcome
  adkRun : AdkOutcome
  behaviors : Stage → StageOutcome

/-- `createWorkflow`: tries `AgentBuilder.create(...).asSequential([...]).build()`;
on failure the inner `catch (adkError)` sets `this.workflow = null` and
returns null (fallback mode), on success `this.workflow` holds the
built workflow. -/
def createWorkflow (env : Env) (s : OrchState) : OrchState :=
  match env.adkBuild with
  | .ok _ => { s with workflow := true }
  | .err _ => { s with workflow := false }

/-- The untyped value `start` can produce: `undefined` (the bare
`return;` on the already-running guard), the ADK result, the manual-run
report, or — hypothetically — a status object (the value space of the
untyped JS function; the code never actually returns a status), or a
rethrown error. -/
inductive StartRet
  | undef
  | adkResult (msg : String)
  | report (r : RunReport)
  | status (isRunning : Bool) (sessionId : String) (workflow : String)
  | thrown (msg : String)
deriving DecidableEq

structure StartOut where
  ret : StartRet
  state : OrchState
  trace : List Stage
deriving DecidableEq

/-- `IrisWorkflowOrchestrator.start` (current source): if
`this.isRunning`, log and `return;` (undefined).  Otherwise create the
workflow if absent; if a workflow object exists, run it through ADK
(the stages execute inside the opaque framework, so the instrumented
trace is empty here; a rejection is rethrown by the outer `catch`);
otherwise fall back to `runManualWorkflow()` in the same invocation.
Either completed path sets `this.isRunning = true`. -/
def start (env : Env) (s : OrchState) : StartOut :=
  if s.isRunning then
    ⟨.undef, s, []⟩
  else
    let s₁ := if s.workflow then s else createWorkflow env s
    if s₁.workflow then
      match env.adkRun with
      | .ok m => ⟨.adkResult m, { s₁ with isRunning := true }, []⟩
      | .err m => ⟨.thrown m, s₁, []⟩
    else
      let r := runManualWorkflow env.behaviors
      ⟨.report r.1, { s₁ with isRunning := true }, r.2⟩

/-- `getStatus`: snapshot of the orchestrator state (agent list and
timestamp omitted; `workflow` is the string `'created'` /
`'not_created'`). -/
def getStatus (s : OrchState) : StartRet :=
  .status s.isRunning s.sessionId (if s.workflow then "created" else "not_created")

/-! ## The periodic timer (`main` + `runPeriodicAnalysis`)

`main` installs `setInterval(() => orchestrator.runPeriodicAnalysis(), 2h)`
without awaiting the previous invocation, and `runPeriodicAnalysis`
begins with `if (!this.isRunning) return;` — its only guard.  The
timer/run interleaving is modelled as a small event machine:
`startDone` is `start()` resolving (which sets `isRunning = true`),
`tick` is the interval callback firing (it enters a new periodic run
unless the guard bails out), `finish` is a periodic run's promise
resolving, and `stopCall` is `stop()` (which clears `isRunning`).
`active` counts the periodic runs currently in flight. -/

structure SysState where
  isRunning : Bool
  active : Nat
deriving DecidableEq

inductive SysEvent
  | startDone
  | tick
  | finish
  | stopCall
deriving DecidableEq

/-- One event step.  The `tick` case is the code's guard verbatim:
`if (!this.isRunning) return;` skips the run; otherwise a new run
starts regardless of how many are already in flight. -/
def sysStep (s : SysState) : SysEvent → SysState
  | .startDone => { s with isRunning := true }
  | .tick => if s.isRunning then { s with active := s.active + 1 } else s
  | .finish => { s with active := s.active - 1 }
  | .stopCall => { s with isRunning := false }

/-- Run a sequence of events from the initial state (fresh process:
not running, nothing in flight). -/
def sysRun (evs : List SysEvent) : SysState :=
  evs.foldl sysStep ⟨false, 0⟩

/-! ## Store records (Supabase tables as lists) -/

/-- A row of the `tokens` table (the known-symbol table), as selected
by `storeTokenMentions`: `select('id, symbol')`. -/
structure Token where
  id : Nat
  symbol : String
deriving DecidableEq

/-- A row of the `mentions` table as built by `storeTokenMentions`. -/
structure MentionRow where
  tiktok_id : String
  count : Nat
  token_id : Nat
  mention_at : String
deriving DecidableEq

/-- A row of the `tiktoks` table as built by `storeVideos` (JS `NaN`
in `views` is modelled as `none`). -/
structure TiktokRecord where
  id : String
  username : String
  url : String
  thumbnail : String
  created_at : String
  fetched_at : String
  views : Option ℤ
  comments : Nat
deriving DecidableEq

/-- The comment-analysis object attached to a scraped video by
`extractComments`: `{ count, tickers }`, where `tickers` maps ticker
symbols to mention counts (`Object.entries` order kept as a list). -/
structure CommentData where
  count : Nat
  tickers : Option (List (String × Nat))
deriving DecidableEq

/-- A scraped video as consumed by `storeVideos` (fields that JS
coalesces from `undefined` — `author || ''`, `views?.toString() || "0"` —
are carried as already-coalesced strings). -/
structure VideoData where
  video_url : String
  author : String := ""
  thumbnail_url : String := ""
  views : String := "0"
  posted_timestamp : Option Nat := none
  comments : Option CommentData := none
deriving DecidableEq

/-! ## Pure helpers of `TikTokScrapingTool` -/

/-- `sanitize`: `str ? str.replace(/\u0000/g, "") : ""` — strip NUL
characters, with the empty string mapped to itself by the falsy guard. -/
def sanitize (s : String) : String :=
  if s = "" then "" else String.mk (s.data.filter (fun c => c ≠ Char.ofNat 0))

/-- The ASCII decimal digits (regex `\d`, and the digits accepted by
`parseFloat`), spelled out for easy case analysis. -/
def isDigitChar (c : Char) : Bool :=
  c == '0' || c == '1' || c == '2' || c == '3' || c == '4' ||
  c == '5' || c == '6' || c == '7' || c == '8' || c == '9'

/-- One attempt of the regex `\/video\/(\d+)` at the current position:
the literal `/video/` followed by a maximal nonempty digit run. -/
def matchVideoAt (s : List Char) : Option (List Char) :=
  match s with
  | '/' :: 'v' :: 'i' :: 'd' :: 'e' :: 'o' :: '/' :: rest =>
    let ds := rest.takeWhile isDigitChar
    if ds = [] then none else some ds
  | _ => none

/-- Leftmost match of `\/video\/(\d+)`: try each position in turn. -/
def findVideoId : List Char → Option String
  | [] => none
  | c :: rest =>
    match matchVideoAt (c :: rest) with
    | some ds => some (String.mk ds)
    | none => findVideoId rest

/-- `getTiktokId`: `if (!url) return null; const match = url.match(/\/video\/(\d+)/); ...` -/
def getTiktokId (url : String) : Option String :=
  if url = "" then none else findVideoId url.data

/-! ### `formatViews` and a model of JavaScript's `parseFloat`

JS numbers are idealised as exact `ℚ`, with `NaN` as `none` (`Option`).
This is *not* the program's IEEE-754 binary64 arithmetic: the real
`parseFloat` returns the nearest double and the multiplication in
`formatViews` rounds again, which can change the floor (in JS,
`formatViews("1.005k")` is 1004 because `1.005 * 1000` is
`1004.9999999999999`, while the exact value is 1005); `Infinity`
literals and non-ASCII whitespace are also outside the model.  No
numerical property of `formatViews` is claimed from this idealisation;
it only fills the `views` field of `TiktokRecord`, whose id-keyed
row-count properties do not depend on the stored value.  `parseFloat`
parses the longest leading floating-point literal (optional whitespace
and sign, decimal digits with optional fraction and exponent) and
yields `NaN` when no digits are found. -/

def isSpaceChar (c : Char) : Bool :=
  c == ' ' || c == '\t' || c == '\n' || c == '\r'

def digitVal (c : Char) : Nat := c.toNat - 48

def digitsToNat (ds : List Char) : Nat :=
  ds.foldl (fun a c => 10 * a + digitVal c) 0

/-- The optional leading sign of a float literal. -/
def stripSign (s : List Char) : ℚ × List Char :=
  match s with
  | [] => (1, [])
  | c :: rest =>
    if c = '-' then (-1, rest)
    else if c = '+' then (1, rest)
    else (1, c :: rest)

/-- The optional `.digits` fraction part; returns (fraction digits,
remaining input). -/
def fracDigits (s : List Char) : List Char × List Char :=
  match s with
  | [] => ([], [])
  | c :: rest =>
    if c = '.' then (rest.takeWhile isDigitChar, rest.dropWhile isDigitChar)
    else ([], c :: rest)

/-- The optional sign of the exponent. -/
def stripExpSign (s : List Char) : ℤ × List Char :=
  match s with
  | [] => (1, [])
  | c :: rest =>
    if c = '-' then (-1, rest)
    else if c = '+' then (1, rest)
    else (1, c :: rest)

/-- The optional `e`/`E` exponent; a bare `e` without digits is not
part of the literal and contributes exponent 0. -/
def expValue (s : List Char) : ℤ :=
  match s with
  | [] => 0
  | c :: rest =>
    if c = 'e' ∨ c = 'E' then
      let p := stripExpSign rest
      let eds := p.2.takeWhile isDigitChar
      if eds = [] then 0 else p.1 * (digitsToNat eds : ℤ)
    else 0

/-- `parseFloat`, exactly over `ℚ` (`none` = `NaN`). -/
def parseFloatChars (s : List Char) : Option ℚ :=
  let t := s.dropWhile isSpaceChar
  let sg := stripSign t
  let intDs := sg.2.takeWhile isDigitChar
  let afterInt := sg.2.dropWhile isDigitChar
  let fr := fracDigits afterInt
  if intDs = [] ∧ fr.1 = [] then none
  else
    some (sg.1 * ((digitsToNat intDs : ℚ) +
          (digitsToNat fr.1 : ℚ) / (10 : ℚ) ^ fr.1.length) *
          (10 : ℚ) ^ expValue fr.2)

/-- The `unitMultiplier` table `{ k: 1_000, m: 1_000_000, b: 1_000_000_000 }`;
`some` exactly when `unit in unitMultiplier` holds in JS. -/
def unitMultiplier (c : Char) : Option ℚ :=
  if c = 'k' then some 1000
  else if c = 'm' then some 1000000
  else if c = 'b' then some 1000000000
  else none

/-- `formatViews`: falsy input yields 0; otherwise the last character,
lower-cased, selects a multiplier and the rest is parsed and scaled,
else the whole string is parsed, floored, with `|| 0` mapping `NaN`
(and 0 itself) to 0.  `Math.floor(NaN)` in the multiplier branch is
returned as is, i.e. `none`. -/
def formatViews (views : String) : Option ℤ :=
  if views.data = [] then some 0
  else
    match views.data.getLast? with
    | none => some 0
    | some c =>
      match unitMultiplier c.toLower with
      | some mult =>
        match parseFloatChars views.data.dropLast with
        | none => none
        | some q => some ⌊q * mult⌋
      | none =>
        match parseFloatChars views.data with
        | none => some 0
        | some q => some ⌊q⌋

/-! ## `storeTokenMentions` and `storeVideos` -/

/-- `symbolToTokens.get(symbol)` after the grouping loop: all ids of
tokens whose `symbol` matches, in table order.  `undefined` from
`Map.get` corresponds to the empty list here (the map never stores an
empty array, so the `if (!tokenIds) continue` guard coincides with
emptiness of this list). -/
def tokenIdsFor (tokens : List Token) (s : String) : List Nat :=
  (tokens.filter (fun tk => tk.symbol == s)).map (fun tk => tk.id)

/-- The `mentionsData` array built by `storeTokenMentions`: for each
`(symbol, count)` entry, one row per resolved token id; unresolved
symbols are skipped by the `continue`. -/
def mentionRows (tokens : List Token) (tiktokId : String)
    (tks : List (String × Nat)) (mentionAt : String) : List MentionRow :=
  tks.flatMap (fun sc =>
    (tokenIdsFor tokens sc.1).map (fun tid => ⟨tiktokId, sc.2, tid, mentionAt⟩))

/-- `storeTokenMentions`: bail out when `comments.tickers` is absent;
otherwise `insert` (append, not upsert) the built rows when nonempty. -/
def storeTokenMentions (tokens : List Token) (mentionAt : String)
    (store : List MentionRow) (tiktokId : String) (comments : CommentData) :
    List MentionRow :=
  match comments.tickers with
  | none => store
  | some tks =>
    let mentionsData := mentionRows tokens tiktokId tks mentionAt
    if mentionsData.length > 0 then store ++ mentionsData else store

/-- Model of `Date#toISOString` on a Unix-seconds timestamp: an
injective stand-in for the formatted date string (the exact format is
irrelevant to every claim). -/
def isoOfSeconds (ts : Nat) : String := "epoch:" ++ toString ts

/-- The `tiktokRecord` object built inside `storeVideos`. -/
def mkTiktokRecord (tid : String) (v : VideoData) (now : String) : TiktokRecord :=
  { id := tid
    username := sanitize v.author
    url := sanitize v.video_url
    thumbnail := sanitize v.thumbnail_url
    created_at :=
      match v.posted_timestamp with
      | some ts => isoOfSeconds ts
      | none => now
    fetched_at := now
    views := formatViews v.views
    comments := match v.comments with | some c => c.count | none => 0 }

/-- Supabase `.upsert(record, { onConflict: 'id' })` on the `tiktoks`
table: replace every row with the same `id`, otherwise append. -/
def upsertTiktok (store : List TiktokRecord) (r : TiktokRecord) :
    List TiktokRecord :=
  if store.any (fun x => x.id == r.id) then
    store.map (fun x => if x.id == r.id then r else x)
  else store ++ [r]

/-- The persistent store touched by `storeVideos`. -/
structure DB where
  tiktoks : List TiktokRecord
  mentions : List MentionRow
deriving DecidableEq

/-- One iteration of `storeVideos`'s loop: skip when no TikTok id can
be extracted from the URL, otherwise upsert the record and, when the
video carries comment tickers, store the token mentions. -/
def storeVideo (tokens : List Token) (now : String) (db : DB) (v : VideoData) :
    DB :=
  match getTiktokId v.video_url with
  | none => db
  | some tid =>
    let db₁ := { db with tiktoks := upsertTiktok db.tiktoks (mkTiktokRecord tid v now) }
    match v.comments with
    | none => db₁
    | some cd =>
      match cd.tickers with
      | none => db₁
      | some _ =>
        { db₁ with mentions := storeTokenMentions tokens now db₁.mentions tid cd }

def storeVideos (tokens : List Token) (now : String) (db : DB)
    (videos : List VideoData) : DB :=
  videos.foldl (storeVideo tokens now) db

/-! ## The scraping loops of `TikTokScrapingTool.execute`

`processSearchTerm` / `processHashtagTerm` run the same loop (they
differ only in URL and CSS selector): repeatedly query the DOM for
video elements, extract each element's data, and keep it only when it
has a truthy `video_url` that is not in the invocation-wide
`processedUrls` set.  The successive DOM query results (one list per
scroll iteration, possibly overlapping, `none` for elements whose
extraction yields no data) are the input here; the JS loop's blocking
wait on an empty query result corresponds to an empty list entry.  The
`processedUrls` set is a list with membership semantics. -/

/-- The inner `for (const element of videoElements)` loop. -/
def collectElems (maxResults : Nat) :
    List (Option VideoData) → List String → List VideoData →
    List VideoData × List String
  | [], p, acc => (acc, p)
  | e :: es, p, acc =>
    if maxResults ≤ acc.length then (acc, p)
    else
      match e with
      | none => collectElems maxResults es p acc
      | some v =>
        if v.video_url ≠ "" ∧ v.video_url ∉ p then
          collectElems maxResults es (v.video_url :: p) (acc ++ [v])
        else collectElems maxResults es p acc

/-- The outer `while (results.length < maxResults)` loop over
successive DOM query results. -/
def collectPages (maxResults : Nat) :
    List (List (Option VideoData)) → List String → List VideoData →
    List VideoData × List String
  | [], p, acc => (acc, p)
  | pg :: rest, p, acc =>
    if maxResults ≤ acc.length then (acc, p)
    else
      let r := collectElems maxResults pg p acc
      collectPages maxResults rest r.2 r.1

/-- `processSearchTerm` (and `processHashtagTerm`): fresh `results`
array, shared `processedUrls`. -/
def processSearchTerm (pages : List (List (Option VideoData)))
    (maxResults : Nat) (p : List String) : List VideoData × List String :=
  collectPages maxResults pages p []

/-- One phase of `execute`: iterate the term list (each term's DOM
content given as one entry), threading `processedUrls`; the emitted
batches are kept separate (each is passed to `storeVideos`). -/
def processPhase (maxResults : Nat) :
    List (List (List (Option VideoData))) → List String →
    List (List VideoData) × List String
  | [], p => ([], p)
  | t :: ts, p =>
    let r := processSearchTerm t maxResults p
    let rest := processPhase maxResults ts r.2
    (r.1 :: rest.1, rest.2)

/-- `TikTokScrapingTool.execute`'s emission sequence: the search-term
phase (7 terms, `maxResults = 100` each) followed by the hashtag phase
(7 terms, `maxResults = 200` each), both sharing one `processedUrls`
set; the result is the full sequence of emitted records in order. -/
def tiktokExecute (searchInputs hashtagInputs : List (List (List (Option VideoData)))) :
    List VideoData :=
  let s := processPhase 100 searchInputs []
  let h := processPhase 200 hashtagInputs s.2
  (s.1 ++ h.1).flatten

/-- The external identifiers of an emitted sequence. -/
def urlsOf (l : List VideoData) : List String :=
  l.map (fun v => v.video_url)

/-! ## Lemmas about the manual workflow loops -/

theorem runManualGo_noThrow (b : Stage → StageOutcome) :
    ∀ (stages : List Stage) (acc : List (Stage × StageResult)) (tr : List Stage),
      (∀ st ∈ stages, isThrow (b st) = false) →
      runManualGo b stages acc tr =
        (⟨true, "manual", none, acc ++ stages.map (fun st => (st, resultOf (b st)))⟩,
         tr ++ stages) := by
  intro stages
  induction stages with
  | nil => intro acc tr _; simp [runManualGo]
  | cons st rest ih =>
    intro acc tr h
    have hst := h st (by simp)
    cases hb : b st with
    | ok r =>
      have hres : resultOf (b st) = r := by rw [hb]; rfl
      simp only [runManualGo, hb]
      rw [ih (acc ++ [(st, r)]) (tr ++ [st]) (fun x hx => h x (by simp [hx]))]
      simp [hres, hb, resultOf]
    | throws m => rw [hb] at hst; simp [isThrow] at hst

theorem runManualGo_mode (b : Stage → StageOutcome) :
    ∀ (stages : List Stage) (acc : List (Stage × StageResult)) (tr : List Stage),
      (runManualGo b stages acc tr).1.mode = "manual" := by
  intro stages
  induction stages with
  | nil => intro acc tr; rfl
  | cons st rest ih =>
    intro acc tr
    cases hb : b st with
    | ok r => simp only [runManualGo, hb]; exact ih _ _
    | throws m => simp only [runManualGo, hb]

theorem runManualGo_trace (b : Stage → StageOutcome) :
    ∀ (stages : List Stage) (acc : List (Stage × StageResult)) (tr : List Stage),
      ∃ rest, (runManualGo b stages acc tr).2 ++ rest = tr ++ stages := by
  intro stages
  induction stages with
  | nil => intro acc tr; exact ⟨[], by simp [runManualGo]⟩
  | cons st rest ih =>
    intro acc tr
    cases hb : b st with
    | ok r =>
      obtain ⟨rs, hrs⟩ := ih (acc ++ [(st, r)]) (tr ++ [st])
      exact ⟨rs, by simpa [runManualGo, hb] using hrs⟩
    | throws m => exact ⟨rest, by simp [runManualGo, hb]⟩

theorem runAgentsGo_results (b : Stage → StageOutcome) :
    ∀ (stages : List Stage) (acc : List (Stage × StageResult)),
      runAgentsGo b stages acc =
        acc ++ stages.map (fun st => (st, resultOf (b st))) := by
  intro stages
  induction stages with
  | nil => intro acc; simp [runAgentsGo]
  | cons st rest ih => intro acc; simp only [runAgentsGo]; rw [ih]; simp

theorem runPeriodicGo_noThrow (b : Stage → StageOutcome) :
    ∀ (stages : List Stage) (acc : List (Stage × StageResult)) (tr : List Stage),
      (∀ st ∈ stages, isThrow (b st) = false) →
      runPeriodicGo b stages acc tr =
        (some ⟨true, "manual", none, acc ++ stages.map (fun st => (st, resultOf (b st)))⟩,
         tr ++ stages) := by
  intro stages
  induction stages with
  | nil => intro acc tr _; simp [runPeriodicGo]
  | cons st rest ih =>
    intro acc tr h
    have hst := h st (by simp)
    cases hb : b st with
    | ok r =>
      have hres : resultOf (b st) = r := by rw [hb]; rfl
      simp only [runPeriodicGo, hb]
      rw [ih (acc ++ [(st, r)]) (tr ++ [st]) (fun x hx => h x (by simp [hx]))]
      simp [hres, hb, resultOf]
    | throws m => rw [hb] at hst; simp [isThrow] at hst

/-! ## Claim C1 — ADK setup failure falls back to the manual strategy
within the same `start` invocation -/

/-- C1: when no run is in progress, no workflow has been built yet, and
the ADK workflow setup fails, a single `start` call still executes the
whole stage sequence through the manual strategy and returns the manual
run report, whose `mode` field records that the manual strategy ran;
the same invocation ends with the orchestrator marked running. -/
theorem start_falls_back_to_manual_in_same_run
    (env : Env) (s : OrchState) (m : String)
    (hrun : s.isRunning = false) (hwf : s.workflow = false)
    (hbuild : env.adkBuild = .err m)
    (hok : ∀ st, isThrow (env.behaviors st) = false) :
    (start env s).ret = .report (runManualWorkflow env.behaviors).1 ∧
    (runManualWorkflow env.behaviors).1.mode = "manual" ∧
    (start env s).trace = manualStageOrder ∧
    (start env s).state.isRunning = true := by
  have hstart : start env s =
      ⟨.report (runManualWorkflow env.behaviors).1,
       { workflow := false, isRunning := true, sessionId := s.sessionId },
       (runManualWorkflow env.behaviors).2⟩ := by
    simp [start, hrun, hwf, createWorkflow, hbuild]
  have htr : (runManualWorkflow env.behaviors).2 = manualStageOrder := by
    rw [runManualWorkflow, runManualGo_noThrow env.behaviors _ _ _
      (fun st _ => hok st)]
    simp
  refine ⟨by rw [hstart], runManualGo_mode _ _ _ _, ?_, by rw [hstart]⟩
  rw [hstart]
  exact htr

/-- C1 witness: a concrete failed ADK setup on a fresh orchestrator. -/
theorem start_falls_back_to_manual_in_same_run_witness :
    (start ⟨.err "createSession is not a function", .ok "unused",
            fun _ => .ok ⟨true, "done"⟩⟩
           ⟨false, false, "iris_session_1"⟩).ret =
      .report (runManualWorkflow (fun _ => .ok ⟨true, "done"⟩)).1 ∧
    (runManualWorkflow (fun _ => .ok ⟨true, "done"⟩)).1.mode = "manual" ∧
    (start ⟨.err "createSession is not a function", .ok "unused",
            fun _ => .ok ⟨true, "done"⟩⟩
           ⟨false, false, "iris_session_1"⟩).trace = manualStageOrder ∧
    (start ⟨.err "createSession is not a function", .ok "unused",
            fun _ => .ok ⟨true, "done"⟩⟩
           ⟨false, false, "iris_session_1"⟩).state.isRunning = true :=
  start_falls_back_to_manual_in_same_run _ _ "createSession is not a function"
    rfl rfl rfl (fun _ => rfl)

/-! ## Claim C2 — do stage errors halt downstream stages?

In the current `runManualWorkflow` all seven stage calls share one
`try`/`catch`, so a *throwing* stage ends the run: later stages are not
attempted (the error and the earlier results are still recorded in the
returned report).  Only a stage that returns a caught error object
advances the pipeline.  The older `runAgentsIndividually` wraps each
stage in its own `try`/`catch` and does attempt every stage. -/

/-- A behaviour where the Telegram (channel-scraping) stage throws and
every other stage succeeds. -/
def telegramThrows : Stage → StageOutcome :=
  fun st => match st with
    | .telegram => .throws "channel scrape failed"
    | _ => .ok ⟨true, "done"⟩

/-- C2 counterexample: with the channel-scraping stage throwing, the
current manual workflow attempts only market data, TikTok and Telegram;
the discovery (Outlight), correlation (pattern), alert (Twitter) and
dashboard stages are never attempted, and the report holds results only
for the first two stages — contradicting the claim that a throwing
stage still lets every later stage execute.  (The thrown error itself
is recorded in the report.) -/
theorem manual_run_halts_on_throw_counterexample :
    (runManualWorkflow telegramThrows).2 = [.marketData, .tiktok, .telegram] ∧
    Stage.outlight ∉ (runManualWorkflow telegramThrows).2 ∧
    Stage.pattern ∉ (runManualWorkflow telegramThrows).2 ∧
    Stage.twitter ∉ (runManualWorkflow telegramThrows).2 ∧
    (runManualWorkflow telegramThrows).1.results.map Prod.fst =
      [.marketData, .tiktok] ∧
    (runManualWorkflow telegramThrows).1.error = some "channel scrape failed" := by
  refine ⟨rfl, ?_, ?_, ?_, rfl, rfl⟩ <;> decide

/-- C2 amended: a stage that returns a caught error (rather than
throwing) does not halt downstream stages — when no stage throws, the
current manual workflow attempts all seven stages in order and records
every stage's result, caught errors included.  The older
`runAgentsIndividually` attempts all seven stages unconditionally,
recording a thrown stage as `{ success: false, error }`.  But in the
current `runManualWorkflow` a *throw* halts the run: with the
channel-scraping stage throwing (and the stages before it not
throwing), only the first three stages are attempted, and the thrown
error is recorded in the report. -/
theorem stage_errors_and_downstream_stages
    (b : Stage → StageOutcome) :
    ((∀ st, isThrow (b st) = false) →
      (runManualWorkflow b).2 = manualStageOrder ∧
      (runManualWorkflow b).1.results =
        manualStageOrder.map (fun st => (st, resultOf (b st)))) ∧
    ((runAgentsIndividually b).2 = manualStageOrder ∧
      (runAgentsIndividually b).1.results =
        manualStageOrder.map (fun st => (st, resultOf (b st)))) ∧
    (∀ m, b .telegram = .throws m →
      isThrow (b .marketData) = false → isThrow (b .tiktok) = false →
      (runManualWorkflow b).2 = [.marketData, .tiktok, .telegram] ∧
      (runManualWorkflow b).1.error = some m) := by
  refine ⟨?_, ⟨rfl, by rw [show (runAgentsIndividually b).1.results =
      runAgentsGo b manualStageOrder [] from rfl, runAgentsGo_results]; simp⟩, ?_⟩
  · intro h
    rw [runManualWorkflow, runManualGo_noThrow b _ _ _ (fun st _ => h st)]
    simp
  · intro m htel hmk htk
    obtain ⟨r₁, hr₁⟩ : ∃ r, b .marketData = .ok r := by
      cases h : b .marketData with
      | ok r => exact ⟨r, rfl⟩
      | throws _ => rw [h] at hmk; simp [isThrow] at hmk
    obtain ⟨r₂, hr₂⟩ : ∃ r, b .tiktok = .ok r := by
      cases h : b .tiktok with
      | ok r => exact ⟨r, rfl⟩
      | throws _ => rw [h] at htk; simp [isThrow] at htk
    rw [runManualWorkflow, manualStageOrder]
    simp [runManualGo, hr₁, hr₂, htel]

/-- C2 witness: the amended statement instantiated with an all-ok
behaviour (all stages attempted, all results recorded) and with the
Telegram-throwing behaviour (run halts at Telegram). -/
theorem stage_errors_and_downstream_stages_witness :
    ((runManualWorkflow (fun _ => .ok ⟨true, "done"⟩)).2 = manualStageOrder ∧
      (runManualWorkflow (fun _ => .ok ⟨true, "done"⟩)).1.results =
        manualStageOrder.map (fun st => (st, resultOf (.ok ⟨true, "done"⟩)))) ∧
    (runManualWorkflow telegramThrows).2 = [.marketData, .tiktok, .telegram] :=
  ⟨(stage_errors_and_downstream_stages (fun _ => .ok ⟨true, "done"⟩)).1
      (fun _ => rfl),
   ((stage_errors_and_downstream_stages telegramThrows).2.2
      "channel scrape failed" rfl rfl rfl).1⟩

/-! ## Claim C4 — `start` while already running -/

/-- A concrete environment for the C4 counterexample. -/
def envC4 : Env :=
  ⟨.ok "adk", .ok "adk run", fun _ => .ok ⟨true, "done"⟩⟩

/-- A concrete already-running orchestrator state. -/
def runningState : OrchState := ⟨false, true, "iris_session_2"⟩

/-- C4 counterexample: when a run is already in progress, `start` is
indeed a no-op that executes no stage and leaves the state unchanged —
but it returns `undefined` (the guard is a bare `return;`), not the
current status object, contradicting the claim's "returns the current
status". -/
theorem start_when_running_returns_undefined_counterexample :
    (start envC4 runningState).ret = .undef ∧
    (start envC4 runningState).ret ≠ getStatus runningState ∧
    (start envC4 runningState).trace = [] ∧
    (start envC4 runningState).state = runningState := by
  refine ⟨rfl, ?_, rfl, rfl⟩
  decide

/-- C4 amended: a `start` call on an already-running orchestrator is a
no-op — it executes no stage and leaves the orchestrator state (the
`isRunning` flag, the workflow object, the session id) unchanged — but
its return value is `undefined`, not the current status. -/
theorem start_when_running_is_noop (env : Env) (s : OrchState)
    (h : s.isRunning = true) :
    start env s = ⟨.undef, s, []⟩ := by
  simp [start, h]

/-- C4 witness: the no-op behaviour at the concrete running state. -/
theorem start_when_running_is_noop_witness :
    start envC4 runningState = ⟨.undef, runningState, []⟩ :=
  start_when_running_is_noop envC4 runningState rfl

/-! ## Claim C9 — stage order of full and periodic runs -/

/-- C9: a full manual run with no throwing stage attempts exactly
market data → TikTok → Telegram → Outlight → pattern analysis →
Twitter alerts → dashboard, the order the ADK sequential workflow is
built with; a periodic run's manual fallback with no throwing stage
attempts exactly Outlight → pattern → Twitter → dashboard, again the
ADK periodic order, which is a subsequence of the full order; and any
manual run (throwing or not) attempts a prefix of the full order. -/
theorem full_and_periodic_stage_order (b : Stage → StageOutcome) :
    ((∀ st, isThrow (b st) = false) →
      (runManualWorkflow b).2 = adkFullSequence ∧
      (runPeriodicManual b).2 = adkPeriodicSequence) ∧
    adkFullSequence = manualStageOrder ∧
    adkPeriodicSequence = periodicStageOrder ∧
    List.Sublist adkPeriodicSequence adkFullSequence ∧
    (∃ rest, (runManualWorkflow b).2 ++ rest = manualStageOrder) := by
  refine ⟨?_, rfl, rfl, by decide, ?_⟩
  · intro h
    constructor
    · rw [runManualWorkflow, runManualGo_noThrow b _ _ _ (fun st _ => h st)]
      simp [adkFullSequence, manualStageOrder]
    · rw [runPeriodicManual, runPeriodicGo_noThrow b _ _ _ (fun st _ => h st)]
      simp [adkPeriodicSequence, periodicStageOrder]
  · simpa using runManualGo_trace b manualStageOrder [] []

/-- C9 witness: the orders realised by a concrete all-ok behaviour. -/
theorem full_and_periodic_stage_order_witness :
    (runManualWorkflow (fun _ => .ok ⟨true, "ok"⟩)).2 = adkFullSequence ∧
    (runPeriodicManual (fun _ => .ok ⟨true, "ok"⟩)).2 = adkPeriodicSequence :=
  (full_and_periodic_stage_order (fun _ => .ok ⟨true, "ok"⟩)).1 (fun _ => rfl)

/-! ## Claim C3 — does the periodic timer skip ticks while a run is in
progress?

`runPeriodicAnalysis`'s only guard is `if (!this.isRunning) return;`,
and `this.isRunning` is the flag set to `true` once `start()` completes
and cleared only by `stop()` — it does not track whether a periodic run
is currently executing.  `main`'s `setInterval` fires without awaiting
the previous invocation. -/

/-- C3 counterexample: after `start()` completes and one timer tick
begins a periodic run, a second tick arriving while that run is still
in flight is *not* skipped — the guard sees `isRunning = true` and a
second concurrent run starts, so two runs of the same orchestrator
instance overlap (`active = 2`), contradicting the claim that such a
tick is skipped and that runs never overlap. -/
theorem periodic_tick_not_skipped_counterexample :
    0 < (sysRun [.startDone, .tick]).active ∧
    (sysStep (sysRun [.startDone, .tick]) .tick).active =
      (sysRun [.startDone, .tick]).active + 1 ∧
    (sysRun [.startDone, .tick, .tick]).active = 2 := by
  refine ⟨?_, rfl, rfl⟩
  decide

/-- C3 amended: a periodic tick is skipped exactly when the
orchestrator's `isRunning` flag is false (before a successful `start`
or after `stop`); the guard never consults whether a previous periodic
run is still executing, so a tick arriving during an in-progress run
starts another run, and overlapping runs of the same instance are
reachable. -/
theorem periodic_tick_guard (s : SysState) :
    (sysStep s .tick = s ↔ s.isRunning = false) ∧
    (∃ evs, 2 ≤ (sysRun evs).active) := by
  constructor
  · cases h : s.isRunning with
    | false => simp [sysStep, h]
    | true =>
      simp only [sysStep, h, if_true]
      constructor
      · intro heq
        have : s.active + 1 = s.active := congrArg SysState.active heq
        omega
      · intro hf; cases hf
  · exact ⟨[.startDone, .tick, .tick], by decide⟩

/-! ## Claim C5 — are mention rows upserted per (source, ticker)?

`storeTokenMentions` ends in `this.supabase.from('mentions').insert(mentionsData)`
— a plain insert, not an upsert: every run appends a fresh row per
resolved (tiktok id, token) pair with a fresh `mention_at`. -/

/-- Number of mention rows for one (tiktok_id, token_id) pair. -/
def pairCount (rows : List MentionRow) (tid : String) (tok : Nat) : Nat :=
  (rows.filter (fun r => r.tiktok_id == tid && r.token_id == tok)).length

/-- A one-token table and a one-ticker comment set for the C5
counterexample. -/
def dogeComments : CommentData := ⟨2, some [("DOGE", 2)]⟩

/-- C5 counterexample: running mention storage twice for the same
TikTok id `"71"` and the same resolved token (id 1) leaves *two* rows
for the pair, not at most one — the store appends rather than
upserting. -/
theorem mention_rows_duplicated_counterexample :
    pairCount
      (storeTokenMentions [⟨1, "DOGE"⟩] "T2"
        (storeTokenMentions [⟨1, "DOGE"⟩] "T1" [] "71" dogeComments)
        "71" dogeComments)
      "71" 1 = 2 := by
  decide

theorem storeTokenMentions_append (tokens : List Token) (mentionAt : String)
    (store : List MentionRow) (tiktokId : String) (cnt : Nat)
    (tks : List (String × Nat)) :
    storeTokenMentions tokens mentionAt store tiktokId ⟨cnt, some tks⟩ =
      store ++ mentionRows tokens tiktokId tks mentionAt := by
  simp only [storeTokenMentions]
  by_cases h : (mentionRows tokens tiktokId tks mentionAt).length > 0
  · simp [h]
  · have : mentionRows tokens tiktokId tks mentionAt = [] := by
      cases hr : mentionRows tokens tiktokId tks mentionAt with
      | nil => rfl
      | cons a l => rw [hr] at h; simp at h
    simp [this]

theorem pairCount_append (l₁ l₂ : List MentionRow) (tid : String) (tok : Nat) :
    pairCount (l₁ ++ l₂) tid tok = pairCount l₁ tid tok + pairCount l₂ tid tok := by
  simp [pairCount, List.filter_append]

theorem pairCount_mentionRows_time (tokens : List Token) (tiktokId : String)
    (tks : List (String × Nat)) (t t' : String) (tid : String) (tok : Nat) :
    pairCount (mentionRows tokens tiktokId tks t) tid tok =
      pairCount (mentionRows tokens tiktokId tks t') tid tok := by
  induction tks with
  | nil => rfl
  | cons sc rest ih =>
    simp only [mentionRows, List.flatMap_cons] at *
    rw [pairCount_append, pairCount_append, ih]
    congr 1
    induction tokenIdsFor tokens sc.1 with
    | nil => rfl
    | cons i is ihh =>
      simp only [List.map_cons, pairCount, List.filter_cons] at *
      split <;> simp_all

/-- C5 amended: mention storage appends (plain `insert`, not upsert):
re-running it for the same TikTok id and the same ticker counts adds a
fresh batch of rows each time, so after two runs each resolved
(tiktok id, token) pair has gained exactly two rows over the original
store — a time series with one row per run, not at most one row per
pair. -/
theorem mention_storage_appends_per_run (tokens : List Token)
    (store : List MentionRow) (tiktokId : String) (cnt : Nat)
    (tks : List (String × Nat)) (t₁ t₂ : String) (tid : String) (tok : Nat) :
    pairCount
      (storeTokenMentions tokens t₂
        (storeTokenMentions tokens t₁ store tiktokId ⟨cnt, some tks⟩)
        tiktokId ⟨cnt, some tks⟩)
      tid tok =
      pairCount store tid tok +
        2 * pairCount (mentionRows tokens tiktokId tks t₁) tid tok := by
  rw [storeTokenMentions_append, storeTokenMentions_append,
    pairCount_append, pairCount_append,
    pairCount_mentionRows_time tokens tiktokId tks t₂ t₁]
  omega

/-! ## Claim C8 — unknown tickers are silently skipped, resolved ones
recorded -/

/-- C8: a row is produced by `storeTokenMentions`'s `mentionsData`
construction exactly when its ticker symbol resolves against the
known-token table — every `(symbol, count)` entry whose symbol matches
no token contributes nothing (silently, no error: the function is
total), and every entry whose symbol matches produces one row per
matching token id, carrying that entry's count. -/
theorem mention_rows_resolve_against_token_table
    (tokens : List Token) (tiktokId : String) (tks : List (String × Nat))
    (mentionAt : String) (row : MentionRow) :
    row ∈ mentionRows tokens tiktokId tks mentionAt ↔
      ∃ s c, (s, c) ∈ tks ∧
        ∃ tok ∈ tokens, tok.symbol = s ∧
          row = ⟨tiktokId, c, tok.id, mentionAt⟩ := by
  simp only [mentionRows, List.mem_flatMap, List.mem_map, tokenIdsFor,
    List.mem_filter, beq_iff_eq]
  constructor
  · rintro ⟨⟨s, c⟩, hmem, tid, ⟨tok, ⟨htok, hsym⟩, hid⟩, hrow⟩
    exact ⟨s, c, hmem, tok, htok, hsym, by rw [← hrow, hid]⟩
  · rintro ⟨s, c, hmem, tok, htok, hsym, hrow⟩
    exact ⟨⟨s, c⟩, hmem, tok.id, ⟨tok, ⟨htok, hsym⟩, rfl⟩, hrow.symm⟩

/-! ## Claim C6 — within-invocation deduplication of the scraper

The loop invariant: everything a loop emits beyond its accumulator has
pairwise-distinct URLs, none of which were in the `processedUrls` set
on entry, and the set on exit holds exactly the entry set plus the new
URLs. -/

theorem urlsOf_cons (v : VideoData) (l : List VideoData) :
    urlsOf (v :: l) = v.video_url :: urlsOf l := rfl

theorem urlsOf_append (a b : List VideoData) :
    urlsOf (a ++ b) = urlsOf a ++ urlsOf b := by
  simp [urlsOf]

theorem collectElems_spec (maxResults : Nat) :
    ∀ (es : List (Option VideoData)) (p : List String) (acc : List VideoData),
      ∃ new, (collectElems maxResults es p acc).1 = acc ++ new ∧
        (urlsOf new).Nodup ∧
        (∀ u ∈ urlsOf new, u ∉ p) ∧
        (∀ u, u ∈ (collectElems maxResults es p acc).2 ↔
          u ∈ p ∨ u ∈ urlsOf new) := by
  intro es
  induction es with
  | nil =>
    intro p acc
    exact ⟨[], by simp [collectElems, urlsOf]⟩
  | cons e rest ih =>
    intro p acc
    by_cases hmax : maxResults ≤ acc.length
    · exact ⟨[], by simp [collectElems, hmax, urlsOf]⟩
    · cases e with
      | none =>
        obtain ⟨new, h₁, h₂, h₃, h₄⟩ := ih p acc
        exact ⟨new, by simpa [collectElems, hmax] using h₁, h₂, h₃,
          by simpa [collectElems, hmax] using h₄⟩
      | some v =>
        by_cases hv : v.video_url ≠ "" ∧ v.video_url ∉ p
        · obtain ⟨new, h₁, h₂, h₃, h₄⟩ := ih (v.video_url :: p) (acc ++ [v])
          refine ⟨v :: new, ?_, ?_, ?_, ?_⟩
          · rw [show collectElems maxResults (some v :: rest) p acc =
                collectElems maxResults rest (v.video_url :: p) (acc ++ [v]) by
                simp [collectElems, hmax, hv]]
            rw [h₁]; simp
          · rw [urlsOf_cons]
            refine List.nodup_cons.2 ⟨?_, h₂⟩
            intro hmem
            exact (h₃ _ hmem) (by simp)
          · intro u hu
            rw [urlsOf_cons] at hu
            rcases List.mem_cons.1 hu with h | h
            · subst h; exact hv.2
            · intro hp
              exact (h₃ u h) (by simp [hp])
          · intro u
            rw [show collectElems maxResults (some v :: rest) p acc =
                collectElems maxResults rest (v.video_url :: p) (acc ++ [v]) by
                simp [collectElems, hmax, hv]]
            rw [h₄ u, urlsOf_cons]
            simp only [List.mem_cons]
            tauto
        · obtain ⟨new, h₁, h₂, h₃, h₄⟩ := ih p acc
          refine ⟨new, ?_, h₂, h₃, ?_⟩
          · rw [show collectElems maxResults (some v :: rest) p acc =
                collectElems maxResults rest p acc by
                simp [collectElems, hmax, hv]]
            exact h₁
          · rw [show collectElems maxResults (some v :: rest) p acc =
                collectElems maxResults rest p acc by
                simp [collectElems, hmax, hv]]
            exact h₄

theorem collectPages_spec (maxResults : Nat) :
    ∀ (pages : List (List (Option VideoData))) (p : List String)
      (acc : List VideoData),
      ∃ new, (collectPages maxResults pages p acc).1 = acc ++ new ∧
        (urlsOf new).Nodup ∧
        (∀ u ∈ urlsOf new, u ∉ p) ∧
        (∀ u, u ∈ (collectPages maxResults pages p acc).2 ↔
          u ∈ p ∨ u ∈ urlsOf new) := by
  intro pages
  induction pages with
  | nil =>
    intro p acc
    exact ⟨[], by simp [collectPages, urlsOf]⟩
  | cons pg rest ih =>
    intro p acc
    by_cases hmax : maxResults ≤ acc.length
    · exact ⟨[], by simp [collectPages, hmax, urlsOf]⟩
    · obtain ⟨new₁, e₁, n₁, d₁, m₁⟩ := collectElems_spec maxResults pg p acc
      obtain ⟨new₂, e₂, n₂, d₂, m₂⟩ :=
        ih (collectElems maxResults pg p acc).2 (collectElems maxResults pg p acc).1
      have hstep : collectPages maxResults (pg :: rest) p acc =
          collectPages maxResults rest (collectElems maxResults pg p acc).2
            (collectElems maxResults pg p acc).1 := by
        simp [collectPages, hmax]
      refine ⟨new₁ ++ new₂, ?_, ?_, ?_, ?_⟩
      · rw [hstep, e₂, e₁]; simp
      · rw [urlsOf_append]
        refine n₁.append n₂ ?_
        intro u hu₁ hu₂
        exact (d₂ u hu₂) ((m₁ u).2 (Or.inr hu₁))
      · intro u hu
        rw [urlsOf_append] at hu
        rcases List.mem_append.1 hu with h | h
        · exact d₁ u h
        · intro hp
          exact (d₂ u h) ((m₁ u).2 (Or.inl hp))
      · intro u
        rw [hstep, m₂ u, m₁ u, urlsOf_append]
        simp only [List.mem_append]
        tauto

theorem processPhase_spec (maxResults : Nat) :
    ∀ (ts : List (List (List (Option VideoData)))) (p : List String),
      (urlsOf (processPhase maxResults ts p).1.flatten).Nodup ∧
      (∀ u ∈ urlsOf (processPhase maxResults ts p).1.flatten, u ∉ p) ∧
      (∀ u, u ∈ (processPhase maxResults ts p).2 ↔
        u ∈ p ∨ u ∈ urlsOf (processPhase maxResults ts p).1.flatten) := by
  intro ts
  induction ts with
  | nil =>
    intro p
    refine ⟨by simp [processPhase, urlsOf], by simp [processPhase, urlsOf], ?_⟩
    intro u; simp [processPhase, urlsOf]
  | cons t rest ih =>
    intro p
    obtain ⟨new₁, e₁, n₁, d₁, m₁⟩ := collectPages_spec maxResults t p []
    have e₁' : (processSearchTerm t maxResults p).1 = new₁ := by
      rw [processSearchTerm, e₁]; simp
    have m₁' : ∀ u, u ∈ (processSearchTerm t maxResults p).2 ↔
        u ∈ p ∨ u ∈ urlsOf new₁ := m₁
    obtain ⟨nr, dr, mr⟩ := ih (processSearchTerm t maxResults p).2
    have hflat : (processPhase maxResults (t :: rest) p).1.flatten =
        new₁ ++ (processPhase maxResults rest (processSearchTerm t maxResults p).2).1.flatten := by
      simp only [processPhase, List.flatten_cons]
      rw [e₁']
    have hsnd : (processPhase maxResults (t :: rest) p).2 =
        (processPhase maxResults rest (processSearchTerm t maxResults p).2).2 := rfl
    have hurls : urlsOf (processPhase maxResults (t :: rest) p).1.flatten =
        urlsOf new₁ ++
          urlsOf (processPhase maxResults rest (processSearchTerm t maxResults p).2).1.flatten := by
      rw [hflat]; simp [urlsOf]
    have hm₁ : ∀ u ∈ urlsOf new₁, u ∈ (processSearchTerm t maxResults p).2 := by
      intro u hu
      exact (m₁' u).2 (Or.inr hu)
    refine ⟨?_, ?_, ?_⟩
    · rw [hurls]
      refine n₁.append nr ?_
      intro u hu₁ hu₂
      exact (dr u hu₂) (hm₁ u hu₁)
    · intro u hu
      rw [hurls] at hu
      rcases List.mem_append.1 hu with h | h
      · exact d₁ u h
      · intro hp
        exact (dr u h) ((m₁' u).2 (Or.inl hp))
    · intro u
      rw [hsnd, mr u, m₁' u, hurls]
      simp only [List.mem_append]
      tauto

/-- C6: one invocation of `TikTokScrapingTool.execute` never emits the
same video URL twice — even when successive DOM query results overlap,
and across the search-term and hashtag phases, the `processedUrls` set
suppresses every already-seen identifier, so the emitted sequence
lists each external identifier exactly once. -/
theorem execute_emits_each_url_once
    (searchInputs hashtagInputs : List (List (List (Option VideoData)))) :
    (urlsOf (tiktokExecute searchInputs hashtagInputs)).Nodup := by
  obtain ⟨n₁, d₁, m₁⟩ := processPhase_spec 100 searchInputs []
  obtain ⟨n₂, d₂, m₂⟩ := processPhase_spec 200 hashtagInputs
    (processPhase 100 searchInputs []).2
  rw [show tiktokExecute searchInputs hashtagInputs =
      (processPhase 100 searchInputs []).1.flatten ++
        (processPhase 200 hashtagInputs
          (processPhase 100 searchInputs []).2).1.flatten by
    simp [tiktokExecute]]
  rw [show urlsOf ((processPhase 100 searchInputs []).1.flatten ++
      (processPhase 200 hashtagInputs
        (processPhase 100 searchInputs []).2).1.flatten) =
      urlsOf (processPhase 100 searchInputs []).1.flatten ++
        urlsOf (processPhase 200 hashtagInputs
          (processPhase 100 searchInputs []).2).1.flatten by
    simp [urlsOf]]
  refine n₁.append n₂ ?_
  intro u hu₁ hu₂
  exact (d₂ u hu₂) ((m₁ u).2 (Or.inr hu₁))

/-! ## Claim C7 — storing a scraped record is idempotent on its id -/

/-- Whether the `tiktoks` store already holds a row with the given id
(the `onConflict: 'id'` key). -/
def hasId (store : List TiktokRecord) (j : String) : Bool :=
  store.any (fun x => x.id == j)

theorem upsertTiktok_length (store : List TiktokRecord) (r : TiktokRecord)
    (h : hasId store r.id = true) :
    (upsertTiktok store r).length = store.length := by
  have h' : (store.any fun x => x.id == r.id) = true := h
  rw [upsertTiktok, if_pos h']
  simp

theorem find?_replaced (r : TiktokRecord) :
    ∀ (store : List TiktokRecord), hasId store r.id = true →
      ((store.map (fun x => if x.id == r.id then r else x)).find?
        (fun x => x.id == r.id)) = some r := by
  intro store
  induction store with
  | nil => intro h; simp [hasId] at h
  | cons x xs ih =>
    intro h
    by_cases hx : (x.id == r.id) = true
    · simp [List.find?, hx]
    · have hxf : (x.id == r.id) = false := by simpa using hx
      have hxs : hasId xs r.id = true := by
        simp only [hasId, List.any_cons, hxf, Bool.false_or] at h
        exact h
      rw [List.map_cons, if_neg hx, List.find?_cons_of_neg _ (by simp [hxf])]
      exact ih hxs

theorem upsertTiktok_find (store : List TiktokRecord) (r : TiktokRecord)
    (h : hasId store r.id = true) :
    (upsertTiktok store r).find? (fun x => x.id == r.id) = some r := by
  have h' : (store.any fun x => x.id == r.id) = true := h
  rw [upsertTiktok, if_pos h']
  exact find?_replaced r store h

theorem hasId_upsert (store : List TiktokRecord) (r : TiktokRecord) (j : String) :
    hasId (upsertTiktok store r) j = true ↔
      (hasId store j = true ∨ r.id = j) := by
  by_cases h : hasId store r.id = true
  · have h' : (store.any fun x => x.id == r.id) = true := h
    rw [upsertTiktok, if_pos h']
    simp only [hasId, List.any_eq_true, List.mem_map, beq_iff_eq] at *
    constructor
    · rintro ⟨y, ⟨x, hx, rfl⟩, hid⟩
      by_cases hxr : x.id = r.id
      · right; rwa [if_pos hxr] at hid
      · left; exact ⟨x, hx, by rwa [if_neg hxr] at hid⟩
    · rintro (⟨x, hx, hid⟩ | hid)
      · refine ⟨if x.id = r.id then r else x, ⟨x, hx, rfl⟩, ?_⟩
        by_cases hxr : x.id = r.id
        · rw [if_pos hxr, ← hxr]; exact hid
        · rw [if_neg hxr]; exact hid
      · obtain ⟨x₀, hx₀, hid₀⟩ := h
        refine ⟨if x₀.id = r.id then r else x₀, ⟨x₀, hx₀, rfl⟩, ?_⟩
        rw [if_pos hid₀]; exact hid
  · have h' : ¬(store.any fun x => x.id == r.id) = true := h
    rw [upsertTiktok, if_neg h']
    simp only [hasId, List.any_append, List.any_cons, List.any_nil,
      Bool.or_false, Bool.or_eq_true, List.any_eq_true, beq_iff_eq]

theorem storeVideo_tiktoks_none (tokens : List Token) (now : String) (db : DB)
    (v : VideoData) (h : getTiktokId v.video_url = none) :
    (storeVideo tokens now db v).tiktoks = db.tiktoks := by
  simp [storeVideo, h]

theorem storeVideo_tiktoks_some (tokens : List Token) (now : String) (db : DB)
    (v : VideoData) (tid : String) (h : getTiktokId v.video_url = some tid) :
    (storeVideo tokens now db v).tiktoks =
      upsertTiktok db.tiktoks (mkTiktokRecord tid v now) := by
  simp only [storeVideo, h]
  cases v.comments with
  | none => rfl
  | some cd =>
    cases htk : cd.tickers with
    | none => simp [htk]
    | some l => simp [htk]

theorem hasId_storeVideo_mono (tokens : List Token) (now : String) (db : DB)
    (v : VideoData) (j : String) (h : hasId db.tiktoks j = true) :
    hasId (storeVideo tokens now db v).tiktoks j = true := by
  cases hg : getTiktokId v.video_url with
  | none => rwa [storeVideo_tiktoks_none tokens now db v hg]
  | some tid =>
    rw [storeVideo_tiktoks_some tokens now db v tid hg]
    exact (hasId_upsert _ _ _).2 (Or.inl h)

theorem hasId_storeVideo_new (tokens : List Token) (now : String) (db : DB)
    (v : VideoData) (tid : String) (h : getTiktokId v.video_url = some tid) :
    hasId (storeVideo tokens now db v).tiktoks tid = true := by
  rw [storeVideo_tiktoks_some tokens now db v tid h]
  exact (hasId_upsert _ _ _).2 (Or.inr rfl)

theorem hasId_storeVideos_mono (tokens : List Token) (now : String) :
    ∀ (vs : List VideoData) (db : DB) (j : String),
      hasId db.tiktoks j = true →
      hasId (storeVideos tokens now db vs).tiktoks j = true := by
  intro vs
  induction vs with
  | nil => intro db j h; exact h
  | cons v rest ih =>
    intro db j h
    exact ih (storeVideo tokens now db v) j (hasId_storeVideo_mono tokens now db v j h)

theorem hasId_storeVideos_covers (tokens : List Token) (now : String) :
    ∀ (vs : List VideoData) (db : DB) (v : VideoData) (tid : String),
      v ∈ vs → getTiktokId v.video_url = some tid →
      hasId (storeVideos tokens now db vs).tiktoks tid = true := by
  intro vs
  induction vs with
  | nil => intro db v tid hmem; simp at hmem
  | cons u rest ih =>
    intro db v tid hmem hg
    rcases List.mem_cons.1 hmem with rfl | hmem'
    · exact hasId_storeVideos_mono tokens now rest (storeVideo tokens now db v) tid
        (hasId_storeVideo_new tokens now db v tid hg)
    · exact ih (storeVideo tokens now db u) v tid hmem' hg

theorem storeVideos_length_of_covered (tokens : List Token) (now : String) :
    ∀ (vs : List VideoData) (db : DB),
      (∀ v ∈ vs, ∀ tid, getTiktokId v.video_url = some tid →
        hasId db.tiktoks tid = true) →
      (storeVideos tokens now db vs).tiktoks.length = db.tiktoks.length ∧
        (∀ j, hasId (storeVideos tokens now db vs).tiktoks j =
          hasId db.tiktoks j) := by
  intro vs
  induction vs with
  | nil => intro db _; exact ⟨rfl, fun j => rfl⟩
  | cons v rest ih =>
    intro db h
    have hstep : (storeVideo tokens now db v).tiktoks.length = db.tiktoks.length ∧
        (∀ j, hasId (storeVideo tokens now db v).tiktoks j = hasId db.tiktoks j) := by
      cases hg : getTiktokId v.video_url with
      | none => rw [storeVideo_tiktoks_none tokens now db v hg]; exact ⟨rfl, fun j => rfl⟩
      | some tid =>
        have hpres : hasId db.tiktoks tid = true := h v (by simp) tid hg
        rw [storeVideo_tiktoks_some tokens now db v tid hg]
        constructor
        · exact upsertTiktok_length db.tiktoks (mkTiktokRecord tid v now) hpres
        · intro j
          cases hj : hasId db.tiktoks j with
          | true => exact (hasId_upsert _ _ _).2 (Or.inl hj)
          | false =>
            cases hx : hasId (upsertTiktok db.tiktoks (mkTiktokRecord tid v now)) j with
            | false => rfl
            | true =>
              exfalso
              rcases (hasId_upsert _ _ _).1 hx with hl | hr
              · rw [hj] at hl; simp at hl
              · have hid : (mkTiktokRecord tid v now).id = tid := rfl
                rw [hid] at hr
                subst hr
                rw [hj] at hpres
                simp at hpres
    obtain ⟨hlen, hids⟩ := hstep
    obtain ⟨hlen', hids'⟩ := ih (storeVideo tokens now db v)
      (fun w hw tid hg => by rw [hids tid]; exact h w (by simp [hw]) tid hg)
    refine ⟨?_, ?_⟩
    · calc (storeVideos tokens now (storeVideo tokens now db v) rest).tiktoks.length
          = (storeVideo tokens now db v).tiktoks.length := hlen'
        _ = db.tiktoks.length := hlen
    · intro j
      rw [show (storeVideos tokens now db (v :: rest)) =
        storeVideos tokens now (storeVideo tokens now db v) rest from rfl]
      rw [hids' j, hids j]

/-- C7: (a) upserting a record whose id is already in the `tiktoks`
store keeps the row count unchanged and leaves the row under that id
equal to the new record — the refreshed metadata (views, comments,
`fetched_at`) replaces the old row rather than adding one; and (b)
consequently, running `storeVideos` a second time over the same video
list (an overlapping re-scrape) adds no rows at all. -/
theorem store_record_idempotent_on_id :
    (∀ (store : List TiktokRecord) (r : TiktokRecord),
      hasId store r.id = true →
      (upsertTiktok store r).length = store.length ∧
        (upsertTiktok store r).find? (fun x => x.id == r.id) = some r) ∧
    (∀ (tokens : List Token) (now₁ now₂ : String) (db : DB)
      (videos : List VideoData),
      (storeVideos tokens now₂ (storeVideos tokens now₁ db videos) videos).tiktoks.length
        = (storeVideos tokens now₁ db videos).tiktoks.length) := by
  constructor
  · intro store r h
    exact ⟨upsertTiktok_length store r h, upsertTiktok_find store r h⟩
  · intro tokens now₁ now₂ db videos
    exact (storeVideos_length_of_covered tokens now₂ videos
      (storeVideos tokens now₁ db videos)
      (fun v hv tid hg => hasId_storeVideos_covers tokens now₁ videos db v tid hv hg)).1

/-- A first scrape of the sample video, for the C7 witness. -/
def sampleVideoA : VideoData :=
  { video_url := "https://www.tiktok.com/@memehunter/video/123"
    author := "memehunter"
    views := "1.5k"
    comments := some ⟨4, some [("DOGE", 2)]⟩ }

/-- A re-scrape of the same video with refreshed engagement counts. -/
def sampleVideoB : VideoData :=
  { video_url := "https://www.tiktok.com/@memehunter/video/123"
    author := "memehunter"
    views := "2.1k"
    comments := some ⟨9, some [("DOGE", 3)]⟩ }

/-- C7 witness: upserting the re-scraped record over the stored one
keeps one row and that row carries the new metadata; re-running
`storeVideos` on the same list leaves the row count unchanged. -/
theorem store_record_idempotent_on_id_witness :
    ((upsertTiktok [mkTiktokRecord "123" sampleVideoA "T1"]
        (mkTiktokRecord "123" sampleVideoB "T2")).length =
      [mkTiktokRecord "123" sampleVideoA "T1"].length ∧
      (upsertTiktok [mkTiktokRecord "123" sampleVideoA "T1"]
        (mkTiktokRecord "123" sampleVideoB "T2")).find?
          (fun x => x.id == (mkTiktokRecord "123" sampleVideoB "T2").id) =
        some (mkTiktokRecord "123" sampleVideoB "T2")) ∧
    (storeVideos [⟨1, "DOGE"⟩] "T2"
        (storeVideos [⟨1, "DOGE"⟩] "T1" ⟨[], []⟩ [sampleVideoA, sampleVideoB])
        [sampleVideoA, sampleVideoB]).tiktoks.length =
      (storeVideos [⟨1, "DOGE"⟩] "T1" ⟨[], []⟩ [sampleVideoA, sampleVideoB]).tiktoks.length :=
  ⟨store_record_idempotent_on_id.1 _ _ (by decide),
   store_record_idempotent_on_id.2 [⟨1, "DOGE"⟩] "T1" "T2" ⟨[], []⟩
     [sampleVideoA, sampleVideoB]⟩

end Iris
